import Mathlib

/-
Verification of the Kaplan-Meier estimator component of the survival-workshop
repository. The notebook delegates all fitting to an external survival-analysis
library, so the estimator itself is modelled from the specification's algorithm
(product-limit formula over distinct event times); the Event-indicator and
threshold-grouping definitions are embedded from the notebook's own code.
Durations are embedded as rationals (the spec's finite non-negative reals) and
event flags as booleans.
-/

/-- One subject's followed time and whether the event (e.g. death) was observed
at that time, versus the subject being censored. Durations are rationals; the
spec's finiteness and booleanness constraints are enforced by the types. -/
structure Observation where
  duration : ℚ
  event_observed : Bool
deriving DecidableEq, Repr

/-- One point of the Estimate Curve: a (time, survival_probability,
at_risk_count, event_count) tuple, one per distinct event time of the input. -/
structure CurvePoint where
  time : ℚ
  survival_probability : ℚ
  at_risk_count : ℕ
  event_count : ℕ
deriving DecidableEq, Repr

/-- Modelled from the spec: the fitting code lives in the external
survival-analysis library invoked by the notebook (kmf.fit), not in the
repository source; the spec's step 1 collects the sorted set of distinct times
at which an event (not a censoring) occurs. -/
def eventTimes (obs : List Observation) : List ℚ :=
  (((obs.filter (fun o => o.event_observed)).map (fun o => o.duration)).dedup).insertionSort (· ≤ ·)

/-- Modelled from the spec: n_i, the number of observations with duration at
least t (the risk set), as used by the external fitter. -/
def atRisk (obs : List Observation) (t : ℚ) : ℕ :=
  obs.countP (fun o => decide (t ≤ o.duration))

/-- Modelled from the spec: d_i, the number of observations with duration equal
to t and the event observed, as used by the external fitter. -/
def deathsAt (obs : List Observation) (t : ℚ) : ℕ :=
  obs.countP (fun o => decide (o.duration = t) && o.event_observed)

/-- Modelled from the spec: the multiplicative step 1 - d_i / n_i contributed
by the event time t to the product-limit estimate. -/
def stepFactor (obs : List Observation) (t : ℚ) : ℚ :=
  1 - (deathsAt obs t : ℚ) / (atRisk obs t : ℚ)

/-- Modelled from the spec: the product-limit estimate
S(t) = prod over event times t_i with t_i <= t of (1 - d_i / n_i),
computed by the external fitter the notebook calls. -/
def survival (obs : List Observation) (t : ℚ) : ℚ :=
  (((eventTimes obs).filter (fun ti => decide (ti ≤ t))).map (stepFactor obs)).prod

/-- Modelled from the spec: the Estimate Curve returned by fit, one tuple per
distinct event time present in the input. -/
def fit (obs : List Observation) : List CurvePoint :=
  (eventTimes obs).map (fun ti => ⟨ti, survival obs ti, atRisk obs ti, deathsAt obs ti⟩)

/-- Modelled from the spec: the call boundary of fit, which fails fast with a
descriptive error on malformed input (empty Observation Set or a negative
duration; non-finite durations and non-boolean flags cannot be expressed in the
embedded types) and otherwise returns the Estimate Curve. -/
def fitChecked (obs : List Observation) : Except String (List CurvePoint) :=
  if obs = [] then Except.error "empty Observation Set"
  else if obs.any (fun o => decide (o.duration < 0)) then Except.error "negative duration"
  else Except.ok (fit obs)

/-- The naive baseline of the notebook: kmf_naive.fit is called with
np.repeat(1, len(...)) in place of the event indicators, forcing every
observation's event to be treated as observed. -/
def forceEvents (obs : List Observation) : List Observation :=
  obs.map (fun o => Observation.mk o.duration true)

/-- The fly survival table of Part 0 of the notebook: durations 1..10 days with
events observed at 1, 4, 5, 7 and 8. -/
def flies : List Observation :=
  [⟨1, true⟩, ⟨2, false⟩, ⟨3, false⟩, ⟨4, true⟩, ⟨5, true⟩,
   ⟨6, false⟩, ⟨7, true⟩, ⟨8, true⟩, ⟨9, false⟩, ⟨10, false⟩]

/-- Embedded from the notebook: clinical['Event'] =
(clinical['Overall Survival Status'] == 'DECEASED')*1. A missing status value
compares unequal to any string, hence yields 0. -/
def eventIndicator (status : Option String) : ℕ :=
  match status with
  | some s => if s = "DECEASED" then 1 else 0
  | none => 0

/-- Embedded from the notebook: membership in group_1, i.e.
data.loc[data['BRCA1'] > treshold]. A missing value compares false. -/
def inGroup1 (v : Option ℚ) (threshold : ℚ) : Bool :=
  match v with
  | some x => decide (threshold < x)
  | none => false

/-- Embedded from the notebook: membership in group_2, i.e.
data.loc[data['BRCA1'] <= treshold]. A missing value compares false. -/
def inGroup2 (v : Option ℚ) (threshold : ℚ) : Bool :=
  match v with
  | some x => decide (x ≤ threshold)
  | none => false

/-- Membership in the distinct sorted event-time list is exactly having some
observation with that duration and an observed event. -/
theorem mem_eventTimes {obs : List Observation} {t : ℚ} :
    t ∈ eventTimes obs ↔ ∃ o ∈ obs, o.event_observed = true ∧ o.duration = t := by
  simp only [eventTimes, List.mem_insertionSort, List.mem_dedup, List.mem_map, List.mem_filter]
  constructor
  · rintro ⟨o, ⟨ho, hev⟩, rfl⟩
    exact ⟨o, ho, hev, rfl⟩
  · rintro ⟨o, ho, hev, rfl⟩
    exact ⟨o, ⟨ho, hev⟩, rfl⟩

/-- The risk set is non-empty as soon as some observation lasts at least t. -/
theorem atRisk_pos {obs : List Observation} {t : ℚ} (h : ∃ o ∈ obs, t ≤ o.duration) :
    0 < atRisk obs t := by
  rcases h with ⟨o, ho, hle⟩
  exact List.countP_pos_iff.mpr ⟨o, ho, by simpa using hle⟩

/-- The event count is positive as soon as some observation records an event at t. -/
theorem deathsAt_pos {obs : List Observation} {t : ℚ}
    (h : ∃ o ∈ obs, o.duration = t ∧ o.event_observed = true) :
    0 < deathsAt obs t := by
  rcases h with ⟨o, ho, hd, hev⟩
  refine List.countP_pos_iff.mpr ⟨o, ho, ?_⟩
  simp [hd, hev]

/-- Every observation counted as an event at t is also in the risk set at t. -/
theorem deathsAt_le_atRisk (obs : List Observation) (t : ℚ) :
    deathsAt obs t ≤ atRisk obs t := by
  refine List.countP_mono_left (fun o _ h => ?_)
  simp only [Bool.and_eq_true, decide_eq_true_eq] at h ⊢
  exact le_of_eq h.1.symm

/-- Counting a disjunction of two disjoint boolean predicates splits as a sum. -/
theorem countP_disjoint_add (q r : Observation → Bool)
    (hqr : ∀ o, ¬(q o = true ∧ r o = true)) (l : List Observation) :
    l.countP (fun o => q o || r o) = l.countP q + l.countP r := by
  induction l with
  | nil => simp
  | cons a l ih =>
    cases hq : q a with
    | false =>
      cases hr : r a with
      | false =>
        simp only [List.countP_cons, hq, hr, ih, Bool.or_self, Bool.false_eq_true,
          if_true, if_false]
        omega
      | true =>
        simp only [List.countP_cons, hq, hr, ih, Bool.false_or, Bool.false_eq_true,
          if_true, if_false]
        omega
    | true =>
      cases hr : r a with
      | false =>
        simp only [List.countP_cons, hq, hr, ih, Bool.or_false, Bool.false_eq_true,
          if_true, if_false]
        omega
      | true => exact absurd ⟨hq, hr⟩ (hqr a)

/-- If some observation outlives t, the risk set at t strictly exceeds the
event count at t. -/
theorem deathsAt_lt_atRisk {obs : List Observation} {t : ℚ}
    (h : ∃ o ∈ obs, t < o.duration) :
    deathsAt obs t < atRisk obs t := by
  have hsplit := countP_disjoint_add (fun o => decide (o.duration = t))
    (fun o => decide (t < o.duration))
    (fun o ⟨h1, h2⟩ => by
      simp only [decide_eq_true_eq] at h1 h2
      exact absurd h2 (h1 ▸ lt_irrefl t)) obs
  have hcong : atRisk obs t
      = obs.countP (fun o => decide (o.duration = t) || decide (t < o.duration)) := by
    unfold atRisk
    refine List.countP_congr (fun o _ => ?_)
    rcases lt_trichotomy t o.duration with hlt | heq | hgt
    · simp [le_of_lt hlt, hlt]
    · simp [heq.symm, le_of_eq heq]
    · simp [not_le.mpr hgt, not_lt.mpr (le_of_lt hgt), ne_of_lt hgt]
  have hd : deathsAt obs t ≤ obs.countP (fun o => decide (o.duration = t)) := by
    refine List.countP_mono_left (fun o _ hh => ?_)
    simp only [Bool.and_eq_true] at hh
    exact hh.1
  have hpos : 0 < obs.countP (fun o => decide (t < o.duration)) := by
    rcases h with ⟨o, ho, hlt⟩
    exact List.countP_pos_iff.mpr ⟨o, ho, by simpa using hlt⟩
  omega

/-- At an actual event time the step factor 1 - d/n is non-negative, because
the d observations dying at t all belong to the risk set at t. -/
theorem stepFactor_nonneg {obs : List Observation} {t : ℚ} (hmem : t ∈ eventTimes obs) :
    0 ≤ stepFactor obs t := by
  rcases mem_eventTimes.mp hmem with ⟨o, ho, hev, hd⟩
  have hn : 0 < atRisk obs t := atRisk_pos ⟨o, ho, le_of_eq hd.symm⟩
  have hdn : (deathsAt obs t : ℚ) / (atRisk obs t : ℚ) ≤ 1 := by
    rw [div_le_one (by exact_mod_cast hn)]
    exact_mod_cast deathsAt_le_atRisk obs t
  unfold stepFactor
  linarith

/-- The step factor never exceeds one, since d/n is non-negative. -/
theorem stepFactor_le_one (obs : List Observation) (t : ℚ) :
    stepFactor obs t ≤ 1 := by
  have h : (0:ℚ) ≤ (deathsAt obs t : ℚ) / (atRisk obs t : ℚ) :=
    div_nonneg (by positivity) (by positivity)
  unfold stepFactor
  linarith

/-- If some observation strictly outlives t, the step factor at t is positive. -/
theorem stepFactor_pos {obs : List Observation} {t : ℚ}
    (h : ∃ o ∈ obs, t < o.duration) :
    0 < stepFactor obs t := by
  have hn : 0 < atRisk obs t := by
    rcases h with ⟨o, ho, hlt⟩
    exact atRisk_pos ⟨o, ho, le_of_lt hlt⟩
  have hdn : (deathsAt obs t : ℚ) / (atRisk obs t : ℚ) < 1 := by
    rw [div_lt_one (by exact_mod_cast hn)]
    exact_mod_cast deathsAt_lt_atRisk h
  unfold stepFactor
  linarith

/-- If some observation records an event at t, the step factor at t is strictly
below one: an event time always makes the estimate drop. -/
theorem stepFactor_lt_one {obs : List Observation} {t : ℚ}
    (h : ∃ o ∈ obs, o.duration = t ∧ o.event_observed = true) :
    stepFactor obs t < 1 := by
  have hn : 0 < atRisk obs t := by
    rcases h with ⟨o, ho, hd, _⟩
    exact atRisk_pos ⟨o, ho, le_of_eq hd.symm⟩
  have hd : 0 < deathsAt obs t := deathsAt_pos h
  have hdn : (0:ℚ) < (deathsAt obs t : ℚ) / (atRisk obs t : ℚ) :=
    div_pos (by exact_mod_cast hd) (by exact_mod_cast hn)
  unfold stepFactor
  linarith

/-- A product of non-negative factors is non-negative. -/
theorem prod_map_nonneg {l : List ℚ} {f : ℚ → ℚ} (h : ∀ x ∈ l, 0 ≤ f x) :
    0 ≤ (l.map f).prod := by
  induction l with
  | nil => simp
  | cons a l ih =>
    simp only [List.map_cons, List.prod_cons]
    exact mul_nonneg (h a (List.mem_cons_self a l))
      (ih (fun x hx => h x (List.mem_cons_of_mem a hx)))

/-- A product of factors lying in the unit interval stays at most one. -/
theorem prod_map_le_one {l : List ℚ} {f : ℚ → ℚ}
    (h0 : ∀ x ∈ l, 0 ≤ f x) (h1 : ∀ x ∈ l, f x ≤ 1) :
    (l.map f).prod ≤ 1 := by
  induction l with
  | nil => simp
  | cons a l ih =>
    simp only [List.map_cons, List.prod_cons]
    exact mul_le_one₀ (h1 a (List.mem_cons_self a l))
      (prod_map_nonneg (fun x hx => h0 x (List.mem_cons_of_mem a hx)))
      (ih (fun x hx => h0 x (List.mem_cons_of_mem a hx))
        (fun x hx => h1 x (List.mem_cons_of_mem a hx)))

/-- A product of strictly positive factors is strictly positive. -/
theorem prod_map_pos {l : List ℚ} {f : ℚ → ℚ} (h : ∀ x ∈ l, 0 < f x) :
    0 < (l.map f).prod := by
  induction l with
  | nil => simp
  | cons a l ih =>
    simp only [List.map_cons, List.prod_cons]
    exact mul_pos (h a (List.mem_cons_self a l))
      (ih (fun x hx => h x (List.mem_cons_of_mem a hx)))

/-- Restricting a product of unit-interval factors to a smaller cutoff can only
increase it: the product over times at most t is at most the product over times
at most s whenever s is at most t. -/
theorem prod_filter_anti (f : ℚ → ℚ) {s t : ℚ} (hst : s ≤ t) :
    ∀ l : List ℚ, (∀ x ∈ l, 0 ≤ f x) → (∀ x ∈ l, f x ≤ 1) →
      ((l.filter (fun x => decide (x ≤ t))).map f).prod
        ≤ ((l.filter (fun x => decide (x ≤ s))).map f).prod := by
  intro l
  induction l with
  | nil => simp
  | cons a l ih =>
    intro h0 h1
    have h0' : ∀ x ∈ l, 0 ≤ f x := fun x hx => h0 x (List.mem_cons_of_mem a hx)
    have h1' : ∀ x ∈ l, f x ≤ 1 := fun x hx => h1 x (List.mem_cons_of_mem a hx)
    have hP2nn : 0 ≤ ((l.filter (fun x => decide (x ≤ t))).map f).prod :=
      prod_map_nonneg (fun x hx => h0' x (List.mem_of_mem_filter hx))
    by_cases has : a ≤ s
    · have hat : a ≤ t := le_trans has hst
      rw [List.filter_cons, List.filter_cons, if_pos (decide_eq_true hat),
        if_pos (decide_eq_true has), List.map_cons, List.map_cons, List.prod_cons,
        List.prod_cons]
      exact mul_le_mul_of_nonneg_left (ih h0' h1') (h0 a (List.mem_cons_self a l))
    · by_cases hat : a ≤ t
      · rw [List.filter_cons, List.filter_cons, if_pos (decide_eq_true hat),
          if_neg (by simpa using has), List.map_cons, List.prod_cons]
        calc f a * ((l.filter (fun x => decide (x ≤ t))).map f).prod
            ≤ 1 * ((l.filter (fun x => decide (x ≤ t))).map f).prod :=
              mul_le_mul_of_nonneg_right (h1 a (List.mem_cons_self a l)) hP2nn
          _ = ((l.filter (fun x => decide (x ≤ t))).map f).prod := one_mul _
          _ ≤ ((l.filter (fun x => decide (x ≤ s))).map f).prod := ih h0' h1'
      · rw [List.filter_cons, List.filter_cons, if_neg (by simpa using hat),
          if_neg (by simpa using has)]
        exact ih h0' h1'

/-- The product over event times at most s is strictly positive when every
factor at a time at most s is strictly positive. -/
theorem prod_filter_pos (f : ℚ → ℚ) (s : ℚ) (l : List ℚ)
    (h : ∀ x ∈ l, x ≤ s → 0 < f x) :
    0 < ((l.filter (fun x => decide (x ≤ s))).map f).prod :=
  prod_map_pos (fun x hx => by
    have hx' := List.mem_filter.mp hx
    exact h x hx'.1 (by simpa using hx'.2))

/-- Strict version of the cutoff comparison: if the factors lie in the unit
interval, every factor up to s is positive, and some time in (s, t] has a
factor strictly below one, then the product up to t is strictly below the
product up to s. -/
theorem prod_filter_strict_anti (f : ℚ → ℚ) {s t : ℚ} (hst : s ≤ t) :
    ∀ l : List ℚ, (∀ x ∈ l, 0 ≤ f x) → (∀ x ∈ l, f x ≤ 1) →
      (∀ x ∈ l, x ≤ s → 0 < f x) →
      (∃ x ∈ l, s < x ∧ x ≤ t ∧ f x < 1) →
      ((l.filter (fun x => decide (x ≤ t))).map f).prod
        < ((l.filter (fun x => decide (x ≤ s))).map f).prod := by
  intro l
  induction l with
  | nil =>
    rintro _ _ _ ⟨x, hx, _⟩
    exact absurd hx (List.not_mem_nil x)
  | cons a l ih =>
    rintro h0 h1 hpos ⟨x, hxmem, hxs, hxt, hxf⟩
    have h0' : ∀ x ∈ l, 0 ≤ f x := fun y hy => h0 y (List.mem_cons_of_mem a hy)
    have h1' : ∀ x ∈ l, f x ≤ 1 := fun y hy => h1 y (List.mem_cons_of_mem a hy)
    have hpos' : ∀ x ∈ l, x ≤ s → 0 < f x :=
      fun y hy => hpos y (List.mem_cons_of_mem a hy)
    have hP1pos : 0 < ((l.filter (fun x => decide (x ≤ s))).map f).prod :=
      prod_filter_pos f s l hpos'
    have hP2nn : 0 ≤ ((l.filter (fun x => decide (x ≤ t))).map f).prod :=
      prod_map_nonneg (fun y hy => h0' y (List.mem_of_mem_filter hy))
    by_cases has : a ≤ s
    · have hat : a ≤ t := le_trans has hst
      have hxl : x ∈ l := by
        rcases List.mem_cons.mp hxmem with rfl | hxl
        · exact absurd has (not_le.mpr hxs)
        · exact hxl
      rw [List.filter_cons, List.filter_cons, if_pos (decide_eq_true hat),
        if_pos (decide_eq_true has), List.map_cons, List.map_cons, List.prod_cons,
        List.prod_cons]
      exact mul_lt_mul_of_pos_left (ih h0' h1' hpos' ⟨x, hxl, hxs, hxt, hxf⟩)
        (hpos a (List.mem_cons_self a l) has)
    · by_cases hat : a ≤ t
      · rw [List.filter_cons, List.filter_cons, if_pos (decide_eq_true hat),
          if_neg (by simpa using has), List.map_cons, List.prod_cons]
        by_cases hfa : f a < 1
        · calc f a * ((l.filter (fun x => decide (x ≤ t))).map f).prod
              ≤ f a * ((l.filter (fun x => decide (x ≤ s))).map f).prod :=
                mul_le_mul_of_nonneg_left (prod_filter_anti f hst l h0' h1')
                  (h0 a (List.mem_cons_self a l))
            _ < 1 * ((l.filter (fun x => decide (x ≤ s))).map f).prod :=
                mul_lt_mul_of_pos_right hfa hP1pos
            _ = ((l.filter (fun x => decide (x ≤ s))).map f).prod := one_mul _
        · have hfa1 : f a = 1 :=
            le_antisymm (h1 a (List.mem_cons_self a l)) (not_lt.mp hfa)
          have hxl : x ∈ l := by
            rcases List.mem_cons.mp hxmem with rfl | hxl
            · exact absurd hxf (by rw [hfa1]; exact lt_irrefl 1)
            · exact hxl
          rw [hfa1, one_mul]
          exact ih h0' h1' hpos' ⟨x, hxl, hxs, hxt, hxf⟩
      · have hxl : x ∈ l := by
          rcases List.mem_cons.mp hxmem with rfl | hxl
          · exact absurd (le_trans hxt (le_refl t)) hat
          · exact hxl
        rw [List.filter_cons, List.filter_cons, if_neg (by simpa using hat),
          if_neg (by simpa using has)]
        exact ih h0' h1' hpos' ⟨x, hxl, hxs, hxt, hxf⟩

/-- The survival estimate is non-negative at every time. -/
theorem survival_nonneg (obs : List Observation) (t : ℚ) : 0 ≤ survival obs t :=
  prod_map_nonneg (fun x hx => stepFactor_nonneg (List.mem_of_mem_filter hx))

/-- The survival estimate never exceeds one. -/
theorem survival_le_one (obs : List Observation) (t : ℚ) : survival obs t ≤ 1 :=
  prod_map_le_one (fun x hx => stepFactor_nonneg (List.mem_of_mem_filter hx))
    (fun x _ => stepFactor_le_one obs x)

/-- The survival estimate is non-increasing in time. -/
theorem survival_anti (obs : List Observation) {s t : ℚ} (hst : s ≤ t) :
    survival obs t ≤ survival obs s :=
  prod_filter_anti (stepFactor obs) hst (eventTimes obs)
    (fun x hx => stepFactor_nonneg hx) (fun x _ => stepFactor_le_one obs x)

/-- Once every event time has passed, the survival estimate stays constant. -/
theorem survival_flat {obs : List Observation} {s t : ℚ} (hst : s ≤ t)
    (h : ∀ x ∈ eventTimes obs, x ≤ s) :
    survival obs t = survival obs s := by
  unfold survival
  have h1 : (eventTimes obs).filter (fun x => decide (x ≤ s)) = eventTimes obs :=
    List.filter_eq_self.mpr (fun a ha => decide_eq_true (h a ha))
  have h2 : (eventTimes obs).filter (fun x => decide (x ≤ t)) = eventTimes obs :=
    List.filter_eq_self.mpr (fun a ha => decide_eq_true (le_trans (h a ha) hst))
  rw [h1, h2]

/-- Between two cutoffs that isolate the same event times, the survival
estimate does not change: only event times, never censoring times, move it. -/
theorem survival_const_between {obs : List Observation} {s t : ℚ} (hst : s ≤ t)
    (h : ∀ x ∈ eventTimes obs, x ≤ s ∨ t < x) :
    survival obs s = survival obs t := by
  unfold survival
  have hfe : (eventTimes obs).filter (fun x => decide (x ≤ s))
      = (eventTimes obs).filter (fun x => decide (x ≤ t)) := by
    refine List.filter_congr (fun x hx => ?_)
    rcases h x hx with hxs | hxt
    · simp [hxs, le_trans hxs hst]
    · simp [not_le.mpr hxt, not_le.mpr (lt_of_le_of_lt hst hxt)]
  rw [hfe]

/-- Before the first event time the survival estimate equals one. -/
theorem survival_eq_one {obs : List Observation} {t : ℚ}
    (h : ∀ x ∈ eventTimes obs, t < x) :
    survival obs t = 1 := by
  unfold survival
  have hnil : (eventTimes obs).filter (fun x => decide (x ≤ t)) = [] :=
    List.filter_eq_nil_iff.mpr (fun a ha => by simpa using not_le.mpr (h a ha))
  rw [hnil]
  rfl

/-- Permuting the Observation Set leaves the sorted distinct event times
unchanged. -/
theorem eventTimes_perm {obs₁ obs₂ : List Observation} (h : obs₁.Perm obs₂) :
    eventTimes obs₁ = eventTimes obs₂ := by
  have hp : ((((obs₁.filter (fun o => o.event_observed)).map
        (fun o => o.duration)).dedup)).Perm
      ((((obs₂.filter (fun o => o.event_observed)).map (fun o => o.duration)).dedup)) :=
    (((h.filter (fun o => o.event_observed)).map (fun o => o.duration))).dedup
  exact List.eq_of_perm_of_sorted
    ((List.perm_insertionSort _ _).trans (hp.trans (List.perm_insertionSort _ _).symm))
    (List.sorted_insertionSort _ _) (List.sorted_insertionSort _ _)

/-- An Observation Set without any observed event has no event times. -/
theorem eventTimes_eq_nil {obs : List Observation}
    (hno : ∀ o ∈ obs, o.event_observed = false) :
    eventTimes obs = [] := by
  unfold eventTimes
  have hf : obs.filter (fun o => o.event_observed) = [] :=
    List.filter_eq_nil_iff.mpr (fun o ho => by simp [hno o ho])
  rw [hf]
  rfl

/-- Claim C1: for every valid non-empty Observation Set, the Estimate Curve
produced by fit has survival_probability non-increasing as time increases, and
every survival_probability value lies in the closed interval [0, 1]. -/
theorem c1_curve_monotone_and_bounded (obs : List Observation)
    (hne : obs ≠ []) (hval : ∀ o ∈ obs, 0 ≤ o.duration) :
    (∀ s t : ℚ, s ≤ t → survival obs t ≤ survival obs s) ∧
    (∀ t : ℚ, 0 ≤ survival obs t ∧ survival obs t ≤ 1) ∧
    (∀ p ∈ fit obs, 0 ≤ p.survival_probability ∧ p.survival_probability ≤ 1) ∧
    (∀ p ∈ fit obs, ∀ q ∈ fit obs, p.time ≤ q.time →
      q.survival_probability ≤ p.survival_probability) := by
  refine ⟨fun s t hst => survival_anti obs hst,
    fun t => ⟨survival_nonneg obs t, survival_le_one obs t⟩, ?_, ?_⟩
  · intro p hp
    rcases List.mem_map.mp hp with ⟨ti, _, rfl⟩
    exact ⟨survival_nonneg obs ti, survival_le_one obs ti⟩
  · intro p hp q hq hpq
    rcases List.mem_map.mp hp with ⟨ti, _, rfl⟩
    rcases List.mem_map.mp hq with ⟨tj, _, rfl⟩
    exact survival_anti obs hpq

/-- Witness for C1 at the one-observation input with duration 3. -/
theorem c1_witness :
    survival [Observation.mk 3 true] 4 ≤ survival [Observation.mk 3 true] 1 :=
  (c1_curve_monotone_and_bounded [Observation.mk 3 true]
    (by decide) (by decide)).1 1 4 (by decide)

/-- Claim C3: for every non-empty Observation Set with at least one event, fit
computes the risk set n_i as the count of observations with duration at least
t_i, the event count d_i as the count of observations dying at t_i, S(t) as the
product over event times up to t of (1 - d_i / n_i); censoring times never
decrease S, and S(t) = 1 before the first event time. -/
theorem c3_product_limit_formula (obs : List Observation) (hne : obs ≠ [])
    (hev : ∃ o ∈ obs, o.event_observed = true) :
    (∀ p ∈ fit obs,
        p.at_risk_count = obs.countP (fun o => decide (p.time ≤ o.duration)) ∧
        p.event_count = obs.countP (fun o => decide (o.duration = p.time) && o.event_observed)) ∧
    (∀ t : ℚ, survival obs t =
        (((eventTimes obs).filter (fun ti => decide (ti ≤ t))).map
          (fun ti => 1 - (deathsAt obs ti : ℚ) / (atRisk obs ti : ℚ))).prod) ∧
    (∀ s t : ℚ, s ≤ t → (∀ x ∈ eventTimes obs, x ≤ s ∨ t < x) →
        survival obs s = survival obs t) ∧
    (∀ t : ℚ, (∀ x ∈ eventTimes obs, t < x) → survival obs t = 1) := by
  refine ⟨?_, fun t => rfl, fun s t hst h => survival_const_between hst h,
    fun t h => survival_eq_one h⟩
  intro p hp
  rcases List.mem_map.mp hp with ⟨ti, _, rfl⟩
  exact ⟨rfl, rfl⟩

/-- Witness for C3 on the fly table, between the event times 1 and 4. -/
theorem c3_witness : survival flies 2 = survival flies 3 :=
  (c3_product_limit_formula flies (by decide) (by decide)).2.2.1 2 3
    (by decide) (by decide)

/-- Claim C4: a non-empty Observation Set where no event is observed yields a
curve constant at 1 for every time, and this is a valid result, not an error. -/
theorem c4_all_censored_flat_one (obs : List Observation) (hne : obs ≠ [])
    (hval : ∀ o ∈ obs, 0 ≤ o.duration)
    (hno : ∀ o ∈ obs, o.event_observed = false) :
    (∀ t : ℚ, survival obs t = 1) ∧ fitChecked obs = Except.ok (fit obs) := by
  constructor
  · intro t
    apply survival_eq_one
    intro x hx
    rw [eventTimes_eq_nil hno] at hx
    exact absurd hx (List.not_mem_nil x)
  · have hneg : ¬(obs.any (fun o => decide (o.duration < 0)) = true) := by
      rw [List.any_eq_true]
      rintro ⟨o, ho, hlt⟩
      exact absurd (of_decide_eq_true hlt) (not_lt.mpr (hval o ho))
    unfold fitChecked
    rw [if_neg hne, if_neg hneg]

/-- Witness for C4 at a single censored observation. -/
theorem c4_witness :
    survival [Observation.mk 2 false] 5 = 1 ∧
      fitChecked [Observation.mk 2 false] = Except.ok (fit [Observation.mk 2 false]) := by
  have h := c4_all_censored_flat_one [Observation.mk 2 false]
    (by decide) (by decide) (by decide)
  exact ⟨h.1 5, h.2⟩

/-- Claim C6: fit is order-independent: a permutation of the Observation Set
yields the same Estimate Curve and the same survival function. -/
theorem c6_order_independence (obs₁ obs₂ : List Observation) (h : obs₁.Perm obs₂) :
    fit obs₁ = fit obs₂ ∧ ∀ t : ℚ, survival obs₁ t = survival obs₂ t := by
  have het := eventTimes_perm h
  have hAt : ∀ t, atRisk obs₁ t = atRisk obs₂ t := fun t => h.countP_eq _
  have hDe : ∀ t, deathsAt obs₁ t = deathsAt obs₂ t := fun t => h.countP_eq _
  have hsf : ∀ t, stepFactor obs₁ t = stepFactor obs₂ t := by
    intro t
    unfold stepFactor
    rw [hAt t, hDe t]
  have hsurv : ∀ t, survival obs₁ t = survival obs₂ t := by
    intro t
    unfold survival
    rw [het]
    exact congrArg List.prod (List.map_congr_left (fun x _ => hsf x))
  refine ⟨?_, hsurv⟩
  unfold fit
  rw [het]
  refine List.map_congr_left (fun x _ => ?_)
  rw [hsurv x, hAt x, hDe x]

/-- Witness for C6 on a two-element swap. -/
theorem c6_witness :
    fit [Observation.mk 2 false, Observation.mk 1 true]
      = fit [Observation.mk 1 true, Observation.mk 2 false] :=
  (c6_order_independence _ _
    (List.Perm.swap (Observation.mk 1 true) (Observation.mk 2 false) [])).1

/-- Claim C7 fails as stated: for the valid non-empty input consisting of one
observation with an event at duration 0, the estimate at time 0 is 0, not 1. -/
theorem c7_counterexample :
    survival [Observation.mk 0 true] 0 = 0 ∧ survival [Observation.mk 0 true] 0 ≠ 1 := by
  have hf : (eventTimes [Observation.mk 0 true]).filter (fun x => decide (x ≤ (0:ℚ)))
      = [0] := by rfl
  have hd : deathsAt [Observation.mk 0 true] 0 = 1 := by rfl
  have hn : atRisk [Observation.mk 0 true] 0 = 1 := by rfl
  have h0 : survival [Observation.mk 0 true] 0 = 0 := by
    unfold survival
    rw [hf]
    simp [stepFactor, hd, hn]
  refine ⟨h0, ?_⟩
  rw [h0]
  norm_num

/-- Claim C7 (amended): S(0) = 1 for every non-empty valid input in which every
observation with an observed event has strictly positive duration; an event at
duration 0 is the only valid input on which the leading point (0, 1) fails. -/
theorem c7_amended_s0_eq_one (obs : List Observation) (hne : obs ≠ [])
    (hval : ∀ o ∈ obs, 0 ≤ o.duration)
    (hpos : ∀ o ∈ obs, o.event_observed = true → 0 < o.duration) :
    survival obs 0 = 1 := by
  apply survival_eq_one
  intro x hx
  rcases mem_eventTimes.mp hx with ⟨o, ho, hev, hdur⟩
  exact hdur ▸ hpos o ho hev

/-- Witness for the amended C7 at a single event at duration 1. -/
theorem c7_witness : survival [Observation.mk 1 true] 0 = 1 :=
  c7_amended_s0_eq_one [Observation.mk 1 true] (by decide) (by decide) (by decide)

/-- Claim C2: on the ten-subject fly table, fit yields exactly the event times
1, 4, 5, 7, 8 with risk sets 10, 7, 6, 4, 3 and one event each, survival
probabilities 9/10, 27/35, 9/14, 27/56, 9/28, and the curve is constant at 9/28
for all later times. -/
theorem c2_fly_dataset :
    fit flies = [CurvePoint.mk 1 (9/10) 10 1, CurvePoint.mk 4 (27/35) 7 1,
      CurvePoint.mk 5 (9/14) 6 1, CurvePoint.mk 7 (27/56) 4 1,
      CurvePoint.mk 8 (9/28) 3 1] ∧
    ∀ t : ℚ, 8 ≤ t → survival flies t = 9/28 := by
  have he : eventTimes flies = [1, 4, 5, 7, 8] := by rfl
  have d1 : deathsAt flies 1 = 1 := by rfl
  have n1 : atRisk flies 1 = 10 := by rfl
  have d4 : deathsAt flies 4 = 1 := by rfl
  have n4 : atRisk flies 4 = 7 := by rfl
  have d5 : deathsAt flies 5 = 1 := by rfl
  have n5 : atRisk flies 5 = 6 := by rfl
  have d7 : deathsAt flies 7 = 1 := by rfl
  have n7 : atRisk flies 7 = 4 := by rfl
  have d8 : deathsAt flies 8 = 1 := by rfl
  have n8 : atRisk flies 8 = 3 := by rfl
  have hs1 : survival flies 1 = 9/10 := by
    have hf : (eventTimes flies).filter (fun ti => decide (ti ≤ (1:ℚ))) = [1] := by rfl
    unfold survival
    rw [hf]
    norm_num [stepFactor, d1, n1]
  have hs4 : survival flies 4 = 27/35 := by
    have hf : (eventTimes flies).filter (fun ti => decide (ti ≤ (4:ℚ))) = [1, 4] := by rfl
    unfold survival
    rw [hf]
    norm_num [stepFactor, d1, n1, d4, n4]
  have hs5 : survival flies 5 = 9/14 := by
    have hf : (eventTimes flies).filter (fun ti => decide (ti ≤ (5:ℚ))) = [1, 4, 5] := by rfl
    unfold survival
    rw [hf]
    norm_num [stepFactor, d1, n1, d4, n4, d5, n5]
  have hs7 : survival flies 7 = 27/56 := by
    have hf : (eventTimes flies).filter (fun ti => decide (ti ≤ (7:ℚ))) = [1, 4, 5, 7] := by rfl
    unfold survival
    rw [hf]
    norm_num [stepFactor, d1, n1, d4, n4, d5, n5, d7, n7]
  have hs8 : survival flies 8 = 9/28 := by
    have hf : (eventTimes flies).filter (fun ti => decide (ti ≤ (8:ℚ))) = [1, 4, 5, 7, 8] := by rfl
    unfold survival
    rw [hf]
    norm_num [stepFactor, d1, n1, d4, n4, d5, n5, d7, n7, d8, n8]
  constructor
  · unfold fit
    rw [he]
    simp only [List.map_cons, List.map_nil]
    rw [hs1, hs4, hs5, hs7, hs8, d1, n1, d4, n4, d5, n5, d7, n7, d8, n8]
  · intro t ht
    have hall : ∀ x ∈ eventTimes flies, x ≤ (8:ℚ) := by
      rw [he]
      decide
    rw [survival_flat ht hall, hs8]

/-- Witness for C2: the curve is still at 9/28 at day 20. -/
theorem c2_witness : survival flies 20 = 9/28 :=
  c2_fly_dataset.2 20 (by decide)

/-- Claim C5: forcing every event indicator to observed (the naive estimate of
the notebook) makes the curve strictly decrease at every distinct duration
present in the input: at each such duration the estimate is strictly below its
value at every earlier time. -/
theorem c5_naive_strictly_decreases (obs : List Observation) (hne : obs ≠ []) :
    ∀ o ∈ obs, ∀ s : ℚ, s < o.duration →
      survival (forceEvents obs) o.duration < survival (forceEvents obs) s := by
  intro o ho s hs
  have hoF : Observation.mk o.duration true ∈ forceEvents obs :=
    List.mem_map_of_mem _ ho
  have hdmem : o.duration ∈ eventTimes (forceEvents obs) :=
    mem_eventTimes.mpr ⟨Observation.mk o.duration true, hoF, rfl, rfl⟩
  have hbound0 : ∀ x ∈ eventTimes (forceEvents obs), 0 ≤ stepFactor (forceEvents obs) x :=
    fun x hx => stepFactor_nonneg hx
  have hbound1 : ∀ x ∈ eventTimes (forceEvents obs), stepFactor (forceEvents obs) x ≤ 1 :=
    fun x _ => stepFactor_le_one _ x
  have hpos : ∀ x ∈ eventTimes (forceEvents obs), x ≤ s →
      0 < stepFactor (forceEvents obs) x :=
    fun x _ hxs =>
      stepFactor_pos ⟨Observation.mk o.duration true, hoF, lt_of_le_of_lt hxs hs⟩
  have hwit : ∃ x ∈ eventTimes (forceEvents obs),
      s < x ∧ x ≤ o.duration ∧ stepFactor (forceEvents obs) x < 1 :=
    ⟨o.duration, hdmem, hs, le_refl _,
      stepFactor_lt_one ⟨Observation.mk o.duration true, hoF, rfl, rfl⟩⟩
  exact prod_filter_strict_anti (stepFactor (forceEvents obs)) (le_of_lt hs)
    (eventTimes (forceEvents obs)) hbound0 hbound1 hpos hwit

/-- Witness for C5 on the fly table: the naive curve drops at duration 2. -/
theorem c5_witness :
    survival (forceEvents flies) 2 < survival (forceEvents flies) 0 :=
  c5_naive_strictly_decreases flies (by decide) (Observation.mk 2 false)
    (by decide) 0 (by decide)

/-- Claim C8: fitChecked fails exactly on malformed input: it returns an error
precisely when the Observation Set is empty or some duration is negative, and
returns a curve precisely otherwise; non-finite durations and non-boolean event
flags are unrepresentable in the embedded input type. -/
theorem c8_fail_fast (obs : List Observation) :
    ((∃ e, fitChecked obs = Except.error e) ↔ obs = [] ∨ ∃ o ∈ obs, o.duration < 0) ∧
    ((∃ c, fitChecked obs = Except.ok c) ↔ ¬(obs = [] ∨ ∃ o ∈ obs, o.duration < 0)) := by
  have hany : obs.any (fun o => decide (o.duration < 0)) = true
      ↔ ∃ o ∈ obs, o.duration < 0 := by
    rw [List.any_eq_true]
    constructor
    · rintro ⟨o, ho, hd⟩
      exact ⟨o, ho, of_decide_eq_true hd⟩
    · rintro ⟨o, ho, hd⟩
      exact ⟨o, ho, decide_eq_true hd⟩
  by_cases h1 : obs = []
  · subst h1
    constructor
    · simp [fitChecked]
    · simp [fitChecked]
  · by_cases h2 : obs.any (fun o => decide (o.duration < 0)) = true
    · have herr : fitChecked obs = Except.error "negative duration" := by
        unfold fitChecked
        rw [if_neg h1, if_pos h2]
      constructor
      · simp [herr, h1, hany.mp h2]
      · simp [herr, h1, hany.mp h2]
    · have hok : fitChecked obs = Except.ok (fit obs) := by
        unfold fitChecked
        rw [if_neg h1, if_neg h2]
      have hnoneg : ¬∃ o ∈ obs, o.duration < 0 := fun hc => h2 (hany.mpr hc)
      constructor
      · simp [hok, h1, hnoneg]
      · simp [hok, h1, hnoneg]

/-- Witness for C8: the empty Observation Set is rejected. -/
theorem c8_witness : ∃ e, fitChecked [] = Except.error e :=
  (c8_fail_fast []).1.mpr (Or.inl rfl)

/-- Claim C9: the Event indicator is 1 exactly when the status field is the
string DECEASED; every other value, including a missing value, yields 0. -/
theorem c9_event_indicator (s : Option String) :
    (eventIndicator s = 1 ↔ s = some "DECEASED") ∧
    (eventIndicator s = 0 ↔ s ≠ some "DECEASED") ∧
    eventIndicator none = 0 := by
  refine ⟨?_, ?_, rfl⟩ <;>
  · cases s with
    | none => simp [eventIndicator]
    | some v =>
      by_cases hv : v = "DECEASED"
      · simp [eventIndicator, hv]
      · simp [eventIndicator, hv]

/-- Witness for C9: a living subject is censored. -/
theorem c9_witness : eventIndicator (some "LIVING") = 0 :=
  (c9_event_indicator (some "LIVING")).2.1.mpr (by decide)

/-- Claim C10: a defined BRCA1 value belongs to exactly one of group_1 (above
the threshold) and group_2 (at most the threshold), while a missing value
belongs to neither group. -/
theorem c10_threshold_partition (threshold : ℚ) :
    (∀ x : ℚ, inGroup1 (some x) threshold = true ↔ inGroup2 (some x) threshold = false) ∧
    inGroup1 none threshold = false ∧ inGroup2 none threshold = false := by
  refine ⟨?_, rfl, rfl⟩
  intro x
  simp [inGroup1, inGroup2, not_le]

/-- Witness for C10 at the notebook threshold 0 and value 1. -/
theorem c10_witness : inGroup1 (some 1) 0 = true :=
  ((c10_threshold_partition 0).1 1).mpr (by decide)
